import Mathlib

/-!
Verification development for the filterable-table component
(filter expression engine, sort engine, column resize engine,
CSV export, column visibility, and the debounce/apply protocol).

Each definition is a shallow embedding of the corresponding
TypeScript source:

* `evaluateNode`, `createEvaluator` — AdvancedFilter.tsx `createEvaluator`;
  the JavaScript `new RegExp` / `regex.test` pair is embedded as an abstract
  `RegexEngine` whose `compile` returns `none` exactly when `new RegExp`
  would throw (the `try/catch` fail-closed path).
* `evalNodeCount` — the same evaluation instrumented with a counter that
  records every regular-expression construction (`new RegExp` call).
* `AFState` with `stepEnterKey`, `stepReset`, `stepTimerFire`,
  `stepCleanup`, `triggerDebouncedApply` — the debounce/apply protocol of
  AdvancedFilter.tsx, with the published predicates recorded as a list.
* `buildFilter` — AdvancedFilter.tsx `buildFilterWithValues` (the id-keyed
  side table `filterValuesStore` is embedded as an association list).
* `removeFromStore`, `handleRemoveChild` — AdvancedFilter.tsx
  `handleRemoveChild` (structural child removal plus side-table cleanup).
* `getRawValue`, `sortData` — FilterableTable.tsx `getRawValue`/`sortData`;
  the JavaScript stable `Array.prototype.sort` is embedded as the stable
  `List.mergeSort`, and `localeCompare` as code-point lexicographic
  comparison (a fixed locale).
* `serializeCell`, `csvContent`, `exportCsv` — FilterableTable.tsx
  `handleExport` (CSV body construction and the byte-order-mark prefix).
* `toggleColumn`, `displayedColumns`, `exportColumns` — FilterableTable.tsx
  `toggleColumn` / DataTable.tsx `visibleColumns` memo / the export column
  filter.
* `handleResizeMove`, `specResizeElseIf` — DataTable.tsx `handleResizeMove`
  (two-column variant); `specResizeElseIf` instead follows the
  specification's else-if wording, for refinement comparison.

JavaScript cell values are embedded as `Value` (null/undefined collapse to
`Value.vnull` where the code treats them identically); numbers are embedded
as `Int` (the relevant code paths use only ordering and string form).
-/

namespace FilterTable

/-! ## Data model (types.ts) -/

inductive FilterOperator where
  | AND
  | OR
deriving DecidableEq

/-- Filter tree node, the tagged union `FilterCondition | FilterGroup` of
types.ts.  A condition carries `id`, `column`, `regex` (the pattern source
string) and `caseSensitive`; a group carries `id`, `operator`, `children`. -/
inductive FilterNode where
  | condition (id column regex : String) (caseSensitive : Bool)
  | group (id : String) (operator : FilterOperator) (children : List FilterNode)

/-- A JavaScript cell value as far as the table code distinguishes them.
`vnull` stands for both `null` and `undefined` stored in a row. -/
inductive Value where
  | vnull
  | vnum (n : Int)
  | vbool (b : Bool)
  | vstr (s : String)
deriving DecidableEq

/-- A data row: an association of column keys to values.  A key absent from
the list is JavaScript `undefined`. -/
abbrev Row := List (String × Value)

/-- `String(value)` for the evaluator: `row[node.column]` with
`null`/`undefined` (absent key included) coerced to the empty string,
matching `strValue` in `createEvaluator`. -/
def strValue : Option Value → String
  | none => ""
  | some .vnull => ""
  | some (.vnum n) => toString n
  | some (.vbool b) => cond b "true" "false"
  | some (.vstr s) => s

/-- Abstract regular-expression facility.  `compile pattern caseSensitive`
returns `some matcher` when `new RegExp(pattern, flags)` succeeds (with
`flags = ""` when case sensitive and `"i"` otherwise) and `none` when it
throws.  `matcher s` is `regex.test(s)`. -/
structure RegexEngine where
  compile : String → Bool → Option (String → Bool)

/-! ## Filter evaluation (AdvancedFilter.tsx `createEvaluator`) -/

mutual
/-- `evaluateNode` of `createEvaluator`: a condition with empty pattern is
true; otherwise the pattern is compiled and tested against the stringified
cell, with a failed compilation evaluating false (the `try/catch`); a group
with no children is true, an AND group is the conjunction of its children
and an OR group the disjunction (both short-circuit). -/
def evaluateNode (E : RegexEngine) : FilterNode → Row → Bool
  | .condition _ column regex caseSensitive, row =>
    if regex = "" then true
    else
      match E.compile regex caseSensitive with
      | none => false
      | some matcher => matcher (strValue (row.lookup column))
  | .group _ op children, row =>
    if children.isEmpty then true
    else
      match op with
      | .AND => evalAll E children row
      | .OR => evalAny E children row

/-- `children.every((child) => evaluateNode(child, row))`. -/
def evalAll (E : RegexEngine) : List FilterNode → Row → Bool
  | [], _ => true
  | c :: cs, row => evaluateNode E c row && evalAll E cs row

/-- `children.some((child) => evaluateNode(child, row))`. -/
def evalAny (E : RegexEngine) : List FilterNode → Row → Bool
  | [], _ => false
  | c :: cs, row => evaluateNode E c row || evalAny E cs row
end

/-- `createEvaluator(root)` returns `(row) => evaluateNode(root, row)`. -/
def createEvaluator (E : RegexEngine) (root : FilterNode) : Row → Bool :=
  fun row => evaluateNode E root row

/-- A sample engine for concrete runs: every pattern compiles and the
resulting matcher accepts every string. -/
def EAccept : RegexEngine := ⟨fun _ _ => some (fun _ => true)⟩

/-- A sample engine on which every pattern fails to compile, standing for
patterns such as `"["` that make `new RegExp` throw. -/
def EReject : RegexEngine := ⟨fun _ _ => none⟩

/-! ## Regex-construction counting (for the once-per-compile claim)

`evalNodeCount` runs the very same evaluation but additionally counts how
many times `new RegExp(...)` is executed: once per visit of a condition
with a non-empty pattern (the construction happens before the test, and
also when it throws), and zero times for children skipped by the
short-circuiting `every`/`some`. -/

mutual
def evalNodeCount (E : RegexEngine) : FilterNode → Row → Bool × Nat
  | .condition _ column regex caseSensitive, row =>
    if regex = "" then (true, 0)
    else
      match E.compile regex caseSensitive with
      | none => (false, 1)
      | some matcher => (matcher (strValue (row.lookup column)), 1)
  | .group _ op children, row =>
    if children.isEmpty then (true, 0)
    else
      match op with
      | .AND => evalAllCount E children row
      | .OR => evalAnyCount E children row

def evalAllCount (E : RegexEngine) : List FilterNode → Row → Bool × Nat
  | [], _ => (true, 0)
  | c :: cs, row =>
    let r := evalNodeCount E c row
    if r.1 then
      let rest := evalAllCount E cs row
      (rest.1, r.2 + rest.2)
    else (false, r.2)

def evalAnyCount (E : RegexEngine) : List FilterNode → Row → Bool × Nat
  | [], _ => (false, 0)
  | c :: cs, row =>
    let r := evalNodeCount E c row
    if r.1 then (true, r.2)
    else
      let rest := evalAnyCount E cs row
      (rest.1, r.2 + rest.2)
end

/-- Total number of regular-expression constructions performed when the
predicate published by one `compile` call is applied to every row of
`rows` (as `processedData` does via `data.filter(evaluator)`). -/
def parsesForRows (E : RegexEngine) (root : FilterNode) (rows : List Row) : Nat :=
  (rows.map (fun r => (evalNodeCount E root r).2)).sum

mutual
/-- Number of conditions with a non-empty pattern in the tree: the number
of regex constructions one `compile` call would need if each condition's
pattern were parsed once per compile. -/
def conditionRegexCount : FilterNode → Nat
  | .condition _ _ regex _ => if regex = "" then 0 else 1
  | .group _ _ children => conditionRegexCountList children

def conditionRegexCountList : List FilterNode → Nat
  | [] => 0
  | c :: cs => conditionRegexCount c + conditionRegexCountList cs
end

/-! ## The id-keyed side table and the debounce/apply protocol -/

/-- One entry of `filterValuesStore`: the per-node live editing values. -/
structure FValues where
  column : String
  regex : String
  caseSensitive : Bool
deriving DecidableEq

/-- The `filterValuesStore` map, embedded as an association list keyed by
node id (only `lookup`/`delete`/`set` are used by the code). -/
abbrev Store := List (String × FValues)

mutual
/-- `buildFilterWithValues`: overlay the side-table values onto the
structural tree.  When a condition's id has a store entry, its values win;
otherwise the structural values are kept.  (In the source, the miss case
also inserts the structural values into the store via `getFilterValue`;
that insertion does not change the returned tree.) -/
def buildFilter (st : Store) : FilterNode → FilterNode
  | .condition id column regex caseSensitive =>
    match st.lookup id with
    | some v => .condition id v.column v.regex v.caseSensitive
    | none => .condition id column regex caseSensitive
  | .group id op children => .group id op (buildFilterList st children)

def buildFilterList (st : Store) : List FilterNode → List FilterNode
  | [] => []
  | c :: cs => buildFilter st c :: buildFilterList st cs
end

/-- An output sent to `props.onFilterChange`: either the evaluator compiled
from a (value-merged) tree, or the constant-true evaluator published by
reset. -/
inductive Published where
  | pred (tree : FilterNode)
  | constTrue

/-- State of the `AdvancedFilter` component as far as the debounce/apply
protocol observes it: the structural tree (`filterRoot`), the side table,
the auto-apply flag, whether the one-shot 500 ms timer is armed
(`debouncedTimerRef !== null`), and the ordered list of predicates
published so far. -/
structure AFState where
  root : FilterNode
  store : Store
  autoApply : Bool
  timerArmed : Bool
  published : List Published

/-- `applyFilter`: compile the value-merged tree and publish it. -/
def applyFilter (s : AFState) : AFState :=
  { s with published := s.published ++ [.pred (buildFilter s.store s.root)] }

/-- `triggerDebouncedApply`: cancel any armed timer, then arm a fresh one
exactly when auto-apply is enabled. -/
def triggerDebouncedApply (s : AFState) : AFState :=
  { s with timerArmed := s.autoApply }

/-- A structural or value edit: update the state and re-arm the debounce
(`handleStructureChange` / `handleValueChange`). -/
def stepEdit (s : AFState) (root : FilterNode) (st : Store) : AFState :=
  triggerDebouncedApply { s with root := root, store := st }

/-- `handleEnterKey`: only when auto-apply is disabled, cancel any armed
timer and apply immediately; when auto-apply is enabled the handler does
nothing. -/
def stepEnterKey (s : AFState) : AFState :=
  if s.autoApply then s
  else applyFilter { s with timerArmed := false }

/-- `handleReset`: publish the constant-true evaluator (and notify the
consumer).  The armed timer is left untouched by the source. -/
def stepReset (s : AFState) : AFState :=
  { s with published := s.published ++ [.constTrue] }

/-- The 500 ms timer firing: only possible while armed; it disarms itself
and runs `applyFilter`. -/
def stepTimerFire (s : AFState) : AFState :=
  if s.timerArmed then applyFilter { s with timerArmed := false } else s

/-- `onCleanup`: component disposal clears any armed timer. -/
def stepCleanup (s : AFState) : AFState :=
  { s with timerArmed := false }

/-! ## Sort engine (FilterableTable.tsx `getRawValue` / `sortData`) -/

inductive SortDirection where
  | asc
  | desc
deriving DecidableEq

/-- `SortState` of types.ts; `column === null` is `none`. -/
structure SortState where
  column : Option String
  direction : Option SortDirection

/-- The comparison value `getRawValue` extracts: a number, a boolean, or a
string (with `null`/`undefined` already coerced to the empty string). -/
inductive RawValue where
  | num (n : Int)
  | bool (b : Bool)
  | str (s : String)
deriving DecidableEq

/-- `getRawValue(row, column)`. -/
def getRawValue (row : Row) (column : String) : RawValue :=
  match row.lookup column with
  | none => .str ""
  | some .vnull => .str ""
  | some (.vnum n) => .num n
  | some (.vbool b) => .bool b
  | some (.vstr s) => .str s

/-- `String(aVal)` applied to an extracted raw value. -/
def rawToString : RawValue → String
  | .num n => toString n
  | .bool b => cond b "true" "false"
  | .str s => s

/-- Code-point lexicographic three-way comparison of character lists,
normalized to -1/0/1: the embedding of `localeCompare` under a fixed
locale. -/
def lexCmp : List Char → List Char → Int
  | [], [] => 0
  | [], _ :: _ => -1
  | _ :: _, [] => 1
  | a :: as, b :: bs =>
    if a.toNat < b.toNat then -1
    else if b.toNat < a.toNat then 1
    else lexCmp as bs

/-- `a.localeCompare(b)` as embedded here. -/
def strCmp (a b : String) : Int := lexCmp a.data b.data

/-- `str.toLowerCase()`, applied character by character. -/
def toLowerStr (s : String) : String := ⟨s.data.map Char.toLower⟩

/-- The comparison the `sortData` comparator computes: numeric difference
for two numbers, `false < true` for two booleans, and otherwise the
lowercase string comparison. -/
def cmpRaw : RawValue → RawValue → Int
  | .num a, .num b => a - b
  | .bool a, .bool b => if a = b then 0 else if a then 1 else -1
  | a, b => strCmp (toLowerStr (rawToString a)) (toLowerStr (rawToString b))

/-- The full comparator passed to `sort`: the `asc` comparison, negated
for `desc`. -/
def jsComparator (column : String) (dir : SortDirection) (a b : Row) : Int :=
  let comparison := cmpRaw (getRawValue a column) (getRawValue b column)
  if dir = .asc then comparison else -comparison

/-- `a` may stay before `b` exactly when the comparator is non-positive:
the order produced by a stable comparison sort. -/
def sortLe (column : String) (dir : SortDirection) (a b : Row) : Bool :=
  decide (jsComparator column dir a b ≤ 0)

/-- `sortData`: the input itself when column or direction is null,
otherwise a stable sort of a copy by the comparator. -/
def sortData (data : List Row) (s : SortState) : List Row :=
  match s.column, s.direction with
  | some column, some dir => data.mergeSort (sortLe column dir)
  | _, _ => data

/-- The sort column is type-homogeneous over the data: either every
extracted value is a number, or none is.  (With a mix, the comparator's
pair rules are cyclic and admit no order at all.) -/
def homogeneousColumn (data : List Row) (column : String) : Prop :=
  (∀ r ∈ data, ∃ n, getRawValue r column = .num n) ∨
    (∀ r ∈ data, ∀ n, getRawValue r column ≠ .num n)

/-- The numeric sort key of a row (0 when the value is not a number;
only used on all-number columns). -/
def keyNum (column : String) (r : Row) : Int :=
  match getRawValue r column with
  | .num n => n
  | _ => 0

/-- The lowercase string sort key of a row. -/
def keyStr (column : String) (r : Row) : String :=
  toLowerStr (rawToString (getRawValue r column))

/-- Globally transitive numeric-key order (agrees with `sortLe` on
all-number columns). -/
def leNum (column : String) (dir : SortDirection) (a b : Row) : Bool :=
  match dir with
  | .asc => decide (keyNum column a ≤ keyNum column b)
  | .desc => decide (keyNum column b ≤ keyNum column a)

/-- Globally transitive string-key order (agrees with `sortLe` on
columns without numbers). -/
def leStr (column : String) (dir : SortDirection) (a b : Row) : Bool :=
  match dir with
  | .asc => decide (strCmp (keyStr column a) (keyStr column b) ≤ 0)
  | .desc => decide (strCmp (keyStr column b) (keyStr column a) ≤ 0)

/-! ## Column resize engine (DataTable.tsx `handleResizeMove`) -/

/-- `handleResizeMove` for an active drag: with `diff === 0` nothing is
published; otherwise the two new widths are computed and then clamped by
two sequential (non-exclusive) `if` statements — first the left clamp,
then the right clamp applied to the possibly already-clamped pair — and
the pair is published.  Widths and the pointer delta are pixel integers. -/
def handleResizeMove (leftStartWidth rightStartWidth delta minWidth : Int) :
    Option (Int × Int) :=
  if delta = 0 then none
  else
    let totalWidth := leftStartWidth + rightStartWidth
    let newLeftWidth := leftStartWidth + delta
    let newRightWidth := rightStartWidth - delta
    let p1 :=
      if newLeftWidth < minWidth then (minWidth, totalWidth - minWidth)
      else (newLeftWidth, newRightWidth)
    let p2 :=
      if p1.2 < minWidth then (totalWidth - minWidth, minWidth)
      else p1
    some p2

/-- Modelled from the spec's wording of the clamp, for comparison: an
else-if chain in which at most one of the two clamps applies. -/
def specResizeElseIf (leftStartWidth rightStartWidth delta minWidth : Int) :
    Int × Int :=
  let totalWidth := leftStartWidth + rightStartWidth
  let newLeftWidth := leftStartWidth + delta
  let newRightWidth := rightStartWidth - delta
  if newLeftWidth < minWidth then (minWidth, totalWidth - minWidth)
  else if newRightWidth < minWidth then (totalWidth - minWidth, minWidth)
  else (newLeftWidth, newRightWidth)

/-! ## Column visibility and CSV export (FilterableTable.tsx) -/

/-- The two fields of `ColumnDefinition` the visibility/export pipeline
reads: the row-lookup key and the header label. -/
structure ColumnDef where
  key : String
  label : String
deriving DecidableEq

/-- `toggleColumn`: remove a visible key (but never the last remaining
one), append a hidden key at the end. -/
def toggleColumn (current : List String) (key : String) : List String :=
  if current.contains key then
    if current.length > 1 then current.filter (fun k => k != key)
    else current
  else current ++ [key]

/-- DataTable's `visibleColumns` memo: the schema columns filtered to the
currently visible keys (schema order). -/
def displayedColumns (columns : List ColumnDef) (visible : List String) :
    List ColumnDef :=
  columns.filter (fun c => visible.contains c.key)

/-- `columnsToExport` in `handleExport`: the same filter of the schema
columns by the visible keys. -/
def exportColumns (columns : List ColumnDef) (visible : List String) :
    List ColumnDef :=
  columns.filter (fun c => visible.contains c.key)

/-- `String(value)` of JavaScript on a cell value. -/
def jsString : Value → String
  | .vnull => "null"
  | .vnum n => toString n
  | .vbool b => cond b "true" "false"
  | .vstr s => s

/-- `str.includes(c)` for a single character, at the character level. -/
def containsChar (s : String) (c : Char) : Bool :=
  s.data.contains c

/-- Whether the cell string triggers quoting: it contains a comma, a
double quote, or a newline. -/
def needsQuote (s : String) : Bool :=
  containsChar s ',' || containsChar s '\"' || containsChar s '\n'

/-- `str.replace(/"/g,'""')`: double every internal double quote. -/
def escQuotes (s : String) : String :=
  ⟨s.data.foldr (fun c acc => if c = '\"' then '\"' :: '\"' :: acc else c :: acc) []⟩

/-- Wrap in double quotes with internal double quotes doubled. -/
def quoteCsv (s : String) : String :=
  "\"" ++ escQuotes s ++ "\""

/-- The raw (pre-quoting) string form of a cell in `handleExport`:
null/undefined to the empty string, booleans to Yes/No, everything else to
its string form. -/
def rawCell : Option Value → String
  | none => ""
  | some .vnull => ""
  | some (.vbool b) => if b then "Yes" else "No"
  | some v => jsString v

/-- One exported cell: the `handleExport` per-cell mapping, quoting the
string form exactly when it contains a comma, quote, or newline. -/
def serializeCell : Option Value → String
  | none => ""
  | some .vnull => ""
  | some (.vbool b) => if b then "Yes" else "No"
  | some v =>
    let str := jsString v
    if needsQuote str then quoteCsv str else str

/-- The CSV text: header row of labels, then one line per row, fields
joined with commas and lines joined with a newline. -/
def csvContent (cols : List ColumnDef) (rows : List Row) : String :=
  String.intercalate "\n"
    (String.intercalate "," (cols.map (fun c => c.label)) ::
      rows.map (fun r =>
        String.intercalate "," (cols.map (fun c => serializeCell (r.lookup c.key)))))

/-- The UTF-8 byte-order mark U+FEFF prepended to the document. -/
def bomStr : String := String.singleton (Char.ofNat 0xFEFF)

/-- The exported document: BOM, then the CSV content of the visible
columns (in schema order) over the exported rows. -/
def exportCsv (columns : List ColumnDef) (visible : List String)
    (rows : List Row) : String :=
  bomStr ++ csvContent (exportColumns columns visible) rows

/-! ## Child removal and side-table cleanup (`handleRemoveChild`) -/

mutual
/-- The recursive `removeFromStore` closure: delete every condition id of
the removed subtree from the side table (group nodes themselves have no
entry to delete and only recurse). -/
def removeFromStore : FilterNode → Store → Store
  | .condition id _ _ _, st => st.filter (fun e => e.1 != id)
  | .group _ _ children, st => removeListFromStore children st

def removeListFromStore : List FilterNode → Store → Store
  | [], st => st
  | c :: cs, st => removeListFromStore cs (removeFromStore c st)
end

mutual
/-- Ids of the condition leaves of a subtree. -/
def conditionIds : FilterNode → List String
  | .condition id _ _ _ => [id]
  | .group _ _ children => conditionIdsList children

def conditionIdsList : List FilterNode → List String
  | [] => []
  | c :: cs => conditionIds c ++ conditionIdsList cs
end

mutual
/-- Ids of every node of a subtree, groups included. -/
def nodeIds : FilterNode → List String
  | .condition id _ _ _ => [id]
  | .group id _ children => id :: nodeIdsList children

def nodeIdsList : List FilterNode → List String
  | [] => []
  | c :: cs => nodeIds c ++ nodeIdsList cs
end

/-- `handleRemoveChild(index)` on a group with the given children: run
`removeFromStore` on the child at the index, then splice it out of the
children (call sites always pass an in-range index). -/
def handleRemoveChild (children : List FilterNode) (index : Nat) (st : Store) :
    List FilterNode × Store :=
  match children[index]? with
  | some child => (children.eraseIdx index, removeFromStore child st)
  | none => (children, st)

/-! ## Concrete instances used in closed runs -/

/-- A one-condition filter tree (pattern `"a"` on column `name`). -/
def oneCondRoot : FilterNode :=
  .group "g" .AND [.condition "c1" "name" "a" false]

/-- Two sample rows for the one-condition tree. -/
def twoRows : List Row :=
  [[("name", .vstr "alice")], [("name", .vstr "bob")]]

/-- A side table holding live values for the condition `c1`. -/
def storeC1 : Store := [("c1", ⟨"name", "ali", false⟩)]

/-- Component state: auto-apply enabled and the debounce timer armed. -/
def armedAutoState : AFState :=
  { root := oneCondRoot, store := storeC1, autoApply := true,
    timerArmed := true, published := [] }

/-- Component state: auto-apply disabled and the debounce timer armed. -/
def armedManualState : AFState :=
  { root := oneCondRoot, store := storeC1, autoApply := false,
    timerArmed := true, published := [] }

/-- Rows whose `n` cells are the number 10, the string "12", and the
number 2: the comparator's pair rules are cyclic on them. -/
def rowN10 : Row := [("n", .vnum 10)]

def rowS12 : Row := [("n", .vstr "12")]

def rowN2 : Row := [("n", .vnum 2)]

def dataMixed : List Row := [rowN10, rowS12, rowN2]

/-- Sorting ascending by column `n`. -/
def sortAscN : SortState := ⟨some "n", some .asc⟩

/-- The rows of the spec example, sorted by `n` ascending. -/
def dataNums : List Row := [[("n", .vnum 3)], [("n", .vnum 1)], [("n", .vnum 2)]]

/-- Columns a, b, c with labels a, b, c. -/
def colsABC : List ColumnDef := [⟨"a", "a"⟩, ⟨"b", "b"⟩, ⟨"c", "c"⟩]

/-- The CSV example row of the spec. -/
def csvRow : Row := [("a", .vstr "x,y"), ("b", .vnull), ("c", .vbool true)]

/-- A removable subtree: a group holding condition x and a nested group
holding condition y. -/
def removableChild : FilterNode :=
  .group "gsub" .OR [.condition "x" "name" "p" false,
    .group "ginner" .AND [.condition "y" "age" "q" true]]

/-- Children of the parent group: the removable subtree and one sibling
condition z. -/
def parentChildren : List FilterNode :=
  [removableChild, .condition "z" "name" "r" false]

/-- Side table holding entries for conditions x, y and z. -/
def storeXYZ : Store :=
  [("x", ⟨"name", "p", false⟩), ("y", ⟨"age", "q", true⟩),
    ("z", ⟨"name", "r", false⟩)]

/-! ## Helper lemmas: filter evaluation -/

theorem evalAll_eq_true_iff (E : RegexEngine) (row : Row) :
    ∀ cs : List FilterNode,
      evalAll E cs row = true ↔ ∀ c ∈ cs, evaluateNode E c row = true := by
  intro cs
  induction cs with
  | nil => simp [evalAll]
  | cons c cs ih => simp [evalAll, ih]

theorem evalAny_eq_true_iff (E : RegexEngine) (row : Row) :
    ∀ cs : List FilterNode,
      evalAny E cs row = true ↔ ∃ c ∈ cs, evaluateNode E c row = true := by
  intro cs
  induction cs with
  | nil => simp [evalAny]
  | cons c cs ih => simp [evalAny, ih]

mutual
theorem evalNodeCount_fst (E : RegexEngine) :
    (n : FilterNode) → (row : Row) →
      (evalNodeCount E n row).1 = evaluateNode E n row
  | .condition id column regex caseSensitive, row => by
    by_cases h : regex = ""
    · simp [evalNodeCount, evaluateNode, h]
    · cases hc : E.compile regex caseSensitive <;>
        simp [evalNodeCount, evaluateNode, h, hc]
  | .group id op children, row => by
    cases hc : children.isEmpty <;> cases op <;>
      simp [evalNodeCount, evaluateNode, hc, evalAllCount_fst E children row,
        evalAnyCount_fst E children row]

theorem evalAllCount_fst (E : RegexEngine) :
    (cs : List FilterNode) → (row : Row) →
      (evalAllCount E cs row).1 = evalAll E cs row
  | [], _ => rfl
  | c :: cs, row => by
    have hc := evalNodeCount_fst E c row
    have hcs := evalAllCount_fst E cs row
    cases hr : (evalNodeCount E c row).1 <;>
      simp [evalAllCount, evalAll, hr, ← hc, hcs]

theorem evalAnyCount_fst (E : RegexEngine) :
    (cs : List FilterNode) → (row : Row) →
      (evalAnyCount E cs row).1 = evalAny E cs row
  | [], _ => rfl
  | c :: cs, row => by
    have hc := evalNodeCount_fst E c row
    have hcs := evalAnyCount_fst E cs row
    cases hr : (evalNodeCount E c row).1 <;>
      simp [evalAnyCount, evalAny, hr, ← hc, hcs]
end

/-! ## Claim C1 -/

/-- Claim C1: for every filter tree and row, a condition leaf with empty
pattern evaluates true; a group with zero children evaluates true; a
(non-degenerate) AND group is true iff every child is true; an OR group
with children is true iff some child is true (an empty group is true by
the empty-children rule, which takes precedence); and the evaluator
returned by `createEvaluator` is the pure function
`evaluateNode` of the tree and the row. -/
theorem claim1_evaluator (E : RegexEngine) (row : Row) :
    (∀ id column regex caseSensitive, regex = "" →
        evaluateNode E (.condition id column regex caseSensitive) row = true)
    ∧ (∀ id op, evaluateNode E (.group id op []) row = true)
    ∧ (∀ id children,
        evaluateNode E (.group id .AND children) row = true ↔
          ∀ c ∈ children, evaluateNode E c row = true)
    ∧ (∀ id children, children ≠ [] →
        (evaluateNode E (.group id .OR children) row = true ↔
          ∃ c ∈ children, evaluateNode E c row = true))
    ∧ (∀ root, createEvaluator E root row = evaluateNode E root row) := by
  refine ⟨?_, ?_, ?_, ?_, ?_⟩
  · intro id column regex caseSensitive h
    simp [evaluateNode, h]
  · intro id op
    simp [evaluateNode]
  · intro id children
    cases children with
    | nil => simp [evaluateNode]
    | cons c cs => simp [evaluateNode, evalAll_eq_true_iff]
  · intro id children h
    cases children with
    | nil => exact absurd rfl h
    | cons c cs => simp [evaluateNode, evalAny_eq_true_iff]
  · intro root
    rfl

theorem claim1_evaluator_witness :
    evaluateNode EAccept (.condition "i" "name" "" false) [] = true
    ∧ evaluateNode EAccept (.group "g" .OR []) [] = true
    ∧ (evaluateNode EAccept
        (.group "g" .AND [.condition "i" "name" "" false]) [] = true ↔
        ∀ c ∈ [FilterNode.condition "i" "name" "" false],
          evaluateNode EAccept c [] = true)
    ∧ (evaluateNode EAccept
        (.group "g" .OR [.condition "i" "name" "" false]) [] = true ↔
        ∃ c ∈ [FilterNode.condition "i" "name" "" false],
          evaluateNode EAccept c [] = true)
    ∧ createEvaluator EAccept oneCondRoot [] = evaluateNode EAccept oneCondRoot [] := by
  have h := claim1_evaluator EAccept []
  exact ⟨h.1 "i" "name" "" false rfl, h.2.1 "g" .OR, h.2.2.1 "g" _,
    h.2.2.2.1 "g" _ (by simp), h.2.2.2.2 oneCondRoot⟩

/-! ## Claim C5 -/

/-- Claim C5: a condition whose (non-empty) pattern fails to compile
evaluates to false on every row — fail-closed — and filtering any row set
with it is a total computation that keeps no row.  (The JavaScript
`try/catch` is embedded as the `Option` returned by `compile`, so
totality of `evaluateNode` is the embedded form of no exception
escaping row evaluation.) -/
theorem claim5_fail_closed (E : RegexEngine) (id column regex : String)
    (caseSensitive : Bool) (hne : regex ≠ "")
    (hinv : E.compile regex caseSensitive = none) :
    (∀ row, evaluateNode E (.condition id column regex caseSensitive) row = false)
    ∧ (∀ rows : List Row,
        rows.filter (createEvaluator E (.condition id column regex caseSensitive)) = []) := by
  have h1 : ∀ row, evaluateNode E (.condition id column regex caseSensitive) row = false := by
    intro row
    simp [evaluateNode, hne, hinv]
  refine ⟨h1, ?_⟩
  intro rows
  induction rows with
  | nil => rfl
  | cons r rs ih => simp [createEvaluator, h1 r, ih]

theorem claim5_fail_closed_witness :
    evaluateNode EReject (.condition "i" "name" "[" false)
      [("name", .vstr "abc")] = false
    ∧ ([[("name", Value.vstr "abc")], []] : List Row).filter
        (createEvaluator EReject (.condition "i" "name" "[" false)) = [] := by
  have h := claim5_fail_closed EReject "i" "name" "[" false (by decide) rfl
  exact ⟨h.1 _, h.2 _⟩

/-! ## Claim C8 -/

/-- Claim C8 (refuted by the code): the published predicate constructs
each condition's regular expression anew on every row it is applied to.
For the one-condition tree applied to two rows, the code performs 2
constructions, not the 1 per compile call the claim states; in general
the parse count grows with the number of rows.  (`evalNodeCount` is the
evaluator instrumented with a construction counter; its boolean agrees
with `evaluateNode` by `evalNodeCount_fst`.) -/
theorem claim8_regex_reparsed_per_row :
    parsesForRows EAccept oneCondRoot twoRows = 2
    ∧ conditionRegexCount oneCondRoot = 1
    ∧ (2 : Nat) ≠ 1 := by
  refine ⟨rfl, rfl, by decide⟩

/-! ## Claim C6 -/

/-- Claim C6 as stated is false on the code: with auto-apply enabled and
the debounce timer armed, the Enter commit signal is a no-op — the armed
timer is not cancelled and nothing is published immediately
(`handleEnterKey` acts only under `!isAutoApply()`). -/
theorem claim6_counterexample :
    stepEnterKey armedAutoState = armedAutoState
    ∧ (stepEnterKey armedAutoState).timerArmed = true
    ∧ (stepEnterKey armedAutoState).published = [] :=
  ⟨rfl, rfl, rfl⟩

/-- Claim C6 amended: when auto-apply is disabled, the Enter commit
signal cancels any armed debounce timer and immediately compiles and
publishes the current tree (side-table values merged in); when auto-apply
is enabled, Enter has no effect. -/
theorem claim6_enter_applies_when_manual (s : AFState) (h : s.autoApply = false) :
    (stepEnterKey s).timerArmed = false
    ∧ (stepEnterKey s).published =
        s.published ++ [.pred (buildFilter s.store s.root)] := by
  simp [stepEnterKey, h, applyFilter]

theorem claim6_enter_witness :
    (stepEnterKey armedManualState).timerArmed = false
    ∧ (stepEnterKey armedManualState).published =
        [Published.pred (buildFilter storeC1 oneCondRoot)] := by
  have h := claim6_enter_applies_when_manual armedManualState rfl
  exact ⟨h.1, h.2⟩

/-! ## Claim C7 -/

/-- Claim C7 (code bug): component disposal does cancel an armed debounce
timer, but the reset signal does not — after reset with the timer armed,
the timer is still armed, and when it fires it compiles and publishes the
pre-reset tree, directly after the reset's constant-true publication. -/
theorem claim7_reset_leaves_timer_armed :
    (stepCleanup armedAutoState).timerArmed = false
    ∧ (stepReset armedAutoState).timerArmed = true
    ∧ (stepTimerFire (stepReset armedAutoState)).published =
        [Published.constTrue, Published.pred (buildFilter storeC1 oneCondRoot)] :=
  ⟨rfl, rfl, rfl⟩

/-! ## Claim C3 -/

/-- Claim C3 as stated is false on the code: the clamps are two sequential
`if` statements, not an else-if chain.  At 40px/40px with delta -10 and
minWidth 50 the code publishes (30, 50) while the claimed else-if chain
yields (50, 30). -/
theorem claim3_counterexample :
    handleResizeMove 40 40 (-10) 50 = some (30, 50)
    ∧ specResizeElseIf 40 40 (-10) 50 = (50, 30)
    ∧ ((30, 50) : Int × Int) ≠ (50, 30) := by
  refine ⟨by decide, by decide, by decide⟩

/-- Claim C3 amended: for a non-zero pointer delta the pair is computed
as newLeft/newRight and clamped by two sequential `if` statements (left
clamp first, then the right clamp on the possibly updated pair); whenever
the two start widths total at least `2 * minWidth` this coincides with
the claimed else-if chain; the 100px/100px, delta 70, minWidth 50 case
yields 150px/50px (and delta 30 yields 130px/70px); the total width of
the pair is always conserved; when neither clamp applies the pair is
exactly (leftStart + delta, rightStart − delta).  (A zero delta publishes
nothing.) -/
theorem claim3_resize (ls rs d m : Int) (hd : d ≠ 0) :
    (∃ p, handleResizeMove ls rs d m = some p
      ∧ p.1 + p.2 = ls + rs
      ∧ (2 * m ≤ ls + rs → p = specResizeElseIf ls rs d m)
      ∧ (m ≤ ls + d → m ≤ rs - d → p = (ls + d, rs - d)))
    ∧ handleResizeMove 100 100 70 50 = some (150, 50)
    ∧ handleResizeMove 100 100 30 50 = some (130, 70)
    ∧ handleResizeMove ls rs 0 m = none := by
  refine ⟨?_, by decide, by decide, by simp [handleResizeMove]⟩
  simp only [handleResizeMove, hd, if_false, specResizeElseIf]
  refine ⟨_, rfl, ?_, ?_, ?_⟩
  · split_ifs <;> simp
  · intro htot
    split_ifs <;> first
      | rfl
      | (simp_all [Prod.ext_iff]; omega)
  · intro h1 h2
    split_ifs <;> first
      | rfl
      | (simp_all [Prod.ext_iff]; omega)

theorem claim3_resize_witness :
    ((-70 : Int) ≠ 0)
    ∧ (∃ p, handleResizeMove 100 100 (-70) 50 = some p
        ∧ p.1 + p.2 = (100 : Int) + 100
        ∧ (2 * 50 ≤ (100 : Int) + 100 → p = specResizeElseIf 100 100 (-70) 50)
        ∧ ((50 : Int) ≤ 100 + -70 → (50 : Int) ≤ 100 - -70 →
            p = (100 + -70, 100 - -70))) := by
  refine ⟨by decide, ?_⟩
  exact (claim3_resize 100 100 (-70) 50 (by decide)).1

/-! ## Claim C4 -/

/-- Claim C4: each exported cell maps null/undefined to the empty string,
booleans to Yes/No and everything else to its string form; a cell is
wrapped in double quotes with internal quotes doubled exactly when its
raw string contains a comma, a double quote, or a newline (the Yes/No and
empty cells never do); fields are joined with commas, rows with newlines,
the header row is the visible columns' labels, and the document carries a
UTF-8 byte-order-mark prefix; the spec's example document is
`a,b,c` then `"x,y",,Yes`. -/
theorem claim4_csv_export (columns : List ColumnDef) (visible : List String)
    (rows : List Row) :
    (∀ v : Option Value,
        serializeCell v =
          if needsQuote (rawCell v) then quoteCsv (rawCell v) else rawCell v)
    ∧ rawCell none = ""
    ∧ rawCell (some .vnull) = ""
    ∧ (∀ b, rawCell (some (.vbool b)) = if b then "Yes" else "No")
    ∧ (∀ n, rawCell (some (.vnum n)) = toString n)
    ∧ (∀ s, rawCell (some (.vstr s)) = s)
    ∧ (∀ s, needsQuote s =
        (containsChar s ',' || containsChar s '\"' || containsChar s '\n'))
    ∧ (∀ s, quoteCsv s = "\"" ++ escQuotes s ++ "\"")
    ∧ exportCsv columns visible rows =
        bomStr ++ String.intercalate "\n"
          (String.intercalate ","
              ((exportColumns columns visible).map (fun c => c.label)) ::
            rows.map (fun r => String.intercalate ","
              ((exportColumns columns visible).map
                (fun c => serializeCell (r.lookup c.key)))))
    ∧ exportCsv colsABC ["a", "b", "c"] [csvRow] =
        bomStr ++ "a,b,c\n\"x,y\",,Yes" := by
  refine ⟨?_, rfl, rfl, ?_, fun _ => rfl, fun _ => rfl, fun _ => rfl,
    fun _ => rfl, rfl, by decide⟩
  · intro v
    match v with
    | none => decide
    | some .vnull => decide
    | some (.vbool b) => cases b <;> decide
    | some (.vnum n) => rfl
    | some (.vstr s) => rfl
  · intro b
    cases b <;> decide

/-! ## Claim C9 -/

/-- Claim C9 as stated is false on the code: after toggling column b off
and back on, the visible-columns sequence is a, c, b, but both the
rendered table and the export emit a, b, c — the schema order, not the
sequence's insertion order. -/
theorem claim9_counterexample :
    toggleColumn (toggleColumn ["a", "b", "c"] "b") "b" = ["a", "c", "b"]
    ∧ (displayedColumns colsABC ["a", "c", "b"]).map (fun c => c.key) =
        ["a", "b", "c"]
    ∧ (exportColumns colsABC ["a", "c", "b"]).map (fun c => c.key) =
        ["a", "b", "c"]
    ∧ (["a", "b", "c"] : List String) ≠ ["a", "c", "b"] := by
  refine ⟨by decide, by decide, by decide, by decide⟩

/-- Claim C9 amended: the visible-columns value is an ordered sequence and
toggling a hidden column on appends its key at the end, but display and
export order is the column-schema order restricted to the visible keys:
the emitted columns form a sublist of the schema, only membership in (not
order of) the visible sequence matters, and the rendered table and the
CSV export use the same column sequence — so a column toggled off and
back on returns to its schema position rather than displaying last. -/
theorem claim9_schema_order (columns : List ColumnDef)
    (visible visible2 : List String) (key : String) :
    (key ∉ visible → toggleColumn visible key = visible ++ [key])
    ∧ (displayedColumns columns visible).Sublist columns
    ∧ ((∀ x, x ∈ visible ↔ x ∈ visible2) →
        displayedColumns columns visible = displayedColumns columns visible2)
    ∧ exportColumns columns visible = displayedColumns columns visible := by
  refine ⟨?_, List.filter_sublist _, ?_, rfl⟩
  · intro h
    simp [toggleColumn, h]
  · intro h
    unfold displayedColumns
    refine List.filter_congr ?_
    intro c _
    have h1 := h c.key
    by_cases h2 : c.key ∈ visible
    · have h3 : c.key ∈ visible2 := h1.mp h2
      simp [h2, h3]
    · have h3 : c.key ∉ visible2 := fun hx => h2 (h1.mpr hx)
      simp [h2, h3]

theorem claim9_schema_order_witness :
    toggleColumn ["a", "c"] "b" = ["a", "c"] ++ ["b"]
    ∧ (displayedColumns colsABC ["a", "c"]).Sublist colsABC
    ∧ displayedColumns colsABC ["a", "c"] = displayedColumns colsABC ["c", "a"]
    ∧ exportColumns colsABC ["a", "c"] = displayedColumns colsABC ["a", "c"] := by
  have h := claim9_schema_order colsABC ["a", "c"] ["c", "a"] "b"
  refine ⟨h.1 (by decide), h.2.1, h.2.2.1 ?_, h.2.2.2⟩
  intro x
  constructor <;> intro hx <;> simp_all <;> tauto

/-! ## Claim C10: store lemmas -/

theorem lookup_filter_ne_self (st : Store) (id : String) :
    (st.filter (fun e => e.1 != id)).lookup id = none := by
  induction st with
  | nil => rfl
  | cons e st ih =>
    obtain ⟨k, v⟩ := e
    by_cases h : k = id
    · simp [List.filter_cons, h, ih]
    · have hbe : (id == k) = false := beq_eq_false_iff_ne.mpr (Ne.symm h)
      have hbn : (k != id) = true := by simp [h]
      simp [List.filter_cons, hbn, List.lookup_cons, hbe, ih]

theorem lookup_filter_of_none (st : Store) (p : String × FValues → Bool)
    (k : String) (h : st.lookup k = none) : (st.filter p).lookup k = none := by
  induction st with
  | nil => rfl
  | cons e st ih =>
    obtain ⟨k', v⟩ := e
    rw [List.lookup_cons] at h
    by_cases hk : k' = k
    · rw [show (k == k') = true from beq_iff_eq.mpr hk.symm] at h
      exact Option.noConfusion h
    · have hbe : (k == k') = false := beq_eq_false_iff_ne.mpr (Ne.symm hk)
      rw [hbe] at h
      cases hp : p (k', v) <;>
        simp [List.filter_cons, hp, List.lookup_cons, hbe, ih h]

mutual
theorem removeFromStore_of_none : (n : FilterNode) → (st : Store) →
    (k : String) → st.lookup k = none → (removeFromStore n st).lookup k = none
  | .condition _ _ _ _, st, k, h => lookup_filter_of_none st _ k h
  | .group _ _ children, st, k, h => removeListFromStore_of_none children st k h

theorem removeListFromStore_of_none : (cs : List FilterNode) → (st : Store) →
    (k : String) → st.lookup k = none →
    (removeListFromStore cs st).lookup k = none
  | [], _, _, h => h
  | c :: cs, st, k, h =>
    removeListFromStore_of_none cs (removeFromStore c st) k
      (removeFromStore_of_none c st k h)
end

mutual
theorem removeFromStore_conditionId : (n : FilterNode) → (st : Store) →
    (k : String) → k ∈ conditionIds n → (removeFromStore n st).lookup k = none
  | .condition id _ _ _, st, k, h => by
    have hk : k = id := by simpa [conditionIds] using h
    subst hk
    exact lookup_filter_ne_self st k
  | .group _ _ children, st, k, h => by
    have h' : k ∈ conditionIdsList children := by
      simpa [conditionIds] using h
    exact removeListFromStore_conditionId children st k h'

theorem removeListFromStore_conditionId : (cs : List FilterNode) →
    (st : Store) → (k : String) → k ∈ conditionIdsList cs →
    (removeListFromStore cs st).lookup k = none
  | c :: cs, st, k, h => by
    have h' : k ∈ conditionIds c ∨ k ∈ conditionIdsList cs := by
      simpa [conditionIdsList] using h
    cases h' with
    | inl hc =>
      exact removeListFromStore_of_none cs (removeFromStore c st) k
        (removeFromStore_conditionId c st k hc)
    | inr hcs => exact removeListFromStore_conditionId cs (removeFromStore c st) k hcs
end

/-! ## Claim C10 -/

/-- Claim C10: removing a child deletes exactly that index from the
group's children, and recursively deletes the side-table entry of every
condition in the removed subtree (nested groups included); consequently —
since the code only ever creates side-table entries under condition ids,
expressed here as the hypothesis that the removed subtree's group ids
have no entry — no side-table entry keyed by any removed node's id
remains observable afterwards. -/
theorem claim10_remove_child (children : List FilterNode) (i : Nat)
    (st : Store) (h : i < children.length) :
    (handleRemoveChild children i st).1 = children.eraseIdx i
    ∧ (∀ cid ∈ conditionIds (children.get ⟨i, h⟩),
        (handleRemoveChild children i st).2.lookup cid = none)
    ∧ ((∀ g ∈ nodeIds (children.get ⟨i, h⟩),
          g ∉ conditionIds (children.get ⟨i, h⟩) → st.lookup g = none) →
        ∀ nid ∈ nodeIds (children.get ⟨i, h⟩),
          (handleRemoveChild children i st).2.lookup nid = none) := by
  have hsome : children[i]? = some (children.get ⟨i, h⟩) := by
    simp [List.getElem?_eq_getElem h]
  refine ⟨by simp [handleRemoveChild, hsome], ?_, ?_⟩
  · intro cid hcid
    simp only [handleRemoveChild, hsome]
    exact removeFromStore_conditionId _ st cid hcid
  · intro hg nid hnid
    by_cases hc : nid ∈ conditionIds (children.get ⟨i, h⟩)
    · simp only [handleRemoveChild, hsome]
      exact removeFromStore_conditionId _ st nid hc
    · simp only [handleRemoveChild, hsome]
      exact removeFromStore_of_none _ st nid (hg nid hnid hc)

theorem claim10_remove_child_witness :
    (handleRemoveChild parentChildren 0 storeXYZ).1 = parentChildren.eraseIdx 0
    ∧ (handleRemoveChild parentChildren 0 storeXYZ).2.lookup "x" = none
    ∧ (handleRemoveChild parentChildren 0 storeXYZ).2.lookup "y" = none
    ∧ (handleRemoveChild parentChildren 0 storeXYZ).2.lookup "gsub" = none
    ∧ (handleRemoveChild parentChildren 0 storeXYZ).2.lookup "ginner" = none := by
  have h := claim10_remove_child parentChildren 0 storeXYZ (by decide)
  refine ⟨h.1, h.2.1 "x" (by decide), h.2.1 "y" (by decide),
    h.2.2 (by decide) "gsub" (by decide),
    h.2.2 (by decide) "ginner" (by decide)⟩

/-! ## Claim C2: comparator lemmas -/

theorem lexCmp_antisym : ∀ a b : List Char, lexCmp a b = - lexCmp b a
  | [], [] => rfl
  | [], _ :: _ => rfl
  | _ :: _, [] => rfl
  | a :: as, b :: bs => by
    by_cases h1 : a.toNat < b.toNat
    · have h2 : ¬ b.toNat < a.toNat := by omega
      simp [lexCmp, h1, h2]
    · by_cases h2 : b.toNat < a.toNat
      · simp [lexCmp, h1, h2]
      · simp [lexCmp, h1, h2, lexCmp_antisym as bs]

theorem lexCmp_trans_nonpos : ∀ a b c : List Char,
    lexCmp a b ≤ 0 → lexCmp b c ≤ 0 → lexCmp a c ≤ 0
  | [], _, c, _, _ => by cases c <;> simp [lexCmp]
  | _ :: _, [], _, h1, _ => by simp [lexCmp] at h1
  | _ :: _, _ :: _, [], _, h2 => by simp [lexCmp] at h2
  | a :: as, b :: bs, c :: cs, h1, h2 => by
    by_cases hab : a.toNat < b.toNat
    · by_cases hbc : b.toNat < c.toNat
      · have hac : a.toNat < c.toNat := by omega
        simp [lexCmp, hac]
      · have hcb : ¬ c.toNat < b.toNat := by
          intro hc
          simp [lexCmp, hbc, hc] at h2
        have hac : a.toNat < c.toNat := by omega
        simp [lexCmp, hac]
    · have hba : ¬ b.toNat < a.toNat := by
        intro hc
        simp [lexCmp, hab, hc] at h1
      have h1' : lexCmp as bs ≤ 0 := by
        simpa [lexCmp, hab, hba] using h1
      by_cases hbc : b.toNat < c.toNat
      · have hac : a.toNat < c.toNat := by omega
        simp [lexCmp, hac]
      · have hcb : ¬ c.toNat < b.toNat := by
          intro hc
          simp [lexCmp, hbc, hc] at h2
        have h2' : lexCmp bs cs ≤ 0 := by
          simpa [lexCmp, hbc, hcb] using h2
        have hac1 : ¬ a.toNat < c.toNat := by omega
        have hac2 : ¬ c.toNat < a.toNat := by omega
        simpa [lexCmp, hac1, hac2] using lexCmp_trans_nonpos as bs cs h1' h2'

theorem strCmp_antisym (a b : String) : strCmp a b = - strCmp b a :=
  lexCmp_antisym a.data b.data

theorem strCmp_trans_nonpos (a b c : String) (h1 : strCmp a b ≤ 0)
    (h2 : strCmp b c ≤ 0) : strCmp a c ≤ 0 :=
  lexCmp_trans_nonpos a.data b.data c.data h1 h2

theorem cmpRaw_antisym : ∀ va vb : RawValue, cmpRaw va vb = - cmpRaw vb va := by
  intro va vb
  cases va <;> cases vb <;>
    first
      | (simp [cmpRaw]; omega)
      | (rename_i p q; cases p <;> cases q <;> decide)
      | exact strCmp_antisym _ _
      | simp [cmpRaw, strCmp_antisym]

theorem jsComparator_antisym (column : String) (dir : SortDirection)
    (a b : Row) : jsComparator column dir a b = - jsComparator column dir b a := by
  cases dir <;> simp [jsComparator, cmpRaw_antisym (getRawValue a column)]

theorem sortLe_total (column : String) (dir : SortDirection) (a b : Row) :
    (sortLe column dir a b || sortLe column dir b a) = true := by
  have h := jsComparator_antisym column dir a b
  simp only [sortLe, Bool.or_eq_true, decide_eq_true_eq]
  omega

/-- On two raw values that are not both numbers and not both booleans,
the comparison is the lowercase string comparison (the catch-all arm). -/
theorem cmpRaw_str_of_mixed (va vb : RawValue)
    (hnum : ∀ x y : Int, ¬(va = .num x ∧ vb = .num y))
    (hbool : ∀ p q : Bool, ¬(va = .bool p ∧ vb = .bool q)) :
    cmpRaw va vb = strCmp (toLowerStr (rawToString va)) (toLowerStr (rawToString vb)) := by
  cases va <;> cases vb <;> try rfl
  · rename_i x y
    exact absurd ⟨rfl, rfl⟩ (hnum x y)
  · rename_i p q
    exact absurd ⟨rfl, rfl⟩ (hbool p q)

/-- On booleans the native comparison coincides with the lowercase string
comparison of `"true"`/`"false"` (so string keys also cover booleans). -/
theorem cmpRaw_bool_eq_str (p q : Bool) :
    cmpRaw (.bool p) (.bool q) =
      strCmp (toLowerStr (rawToString (.bool p))) (toLowerStr (rawToString (.bool q))) := by
  cases p <;> cases q <;> decide

theorem sortLe_eq_leNum (column : String) (dir : SortDirection) (a b : Row)
    (ha : ∃ x, getRawValue a column = .num x)
    (hb : ∃ y, getRawValue b column = .num y) :
    sortLe column dir a b = leNum column dir a b := by
  obtain ⟨x, hx⟩ := ha
  obtain ⟨y, hy⟩ := hb
  cases dir <;>
    simp [sortLe, leNum, jsComparator, keyNum, hx, hy, cmpRaw,
      decide_eq_decide]

theorem sortLe_eq_leStr (column : String) (dir : SortDirection) (a b : Row)
    (ha : ∀ x : Int, getRawValue a column ≠ .num x)
    (hb : ∀ y : Int, getRawValue b column ≠ .num y) :
    sortLe column dir a b = leStr column dir a b := by
  have hcmp : ∀ u v : Row, (∀ x : Int, getRawValue u column ≠ .num x) →
      (∀ y : Int, getRawValue v column ≠ .num y) →
      cmpRaw (getRawValue u column) (getRawValue v column) =
        strCmp (keyStr column u) (keyStr column v) := by
    intro u v hu hv
    by_cases hub : ∃ p, getRawValue u column = .bool p
    · by_cases hvb : ∃ q, getRawValue v column = .bool q
      · obtain ⟨p, hp⟩ := hub
        obtain ⟨q, hq⟩ := hvb
        rw [keyStr, keyStr, hp, hq]
        exact cmpRaw_bool_eq_str p q
      · refine cmpRaw_str_of_mixed _ _ ?_ ?_
        · intro x y ⟨hx, _⟩
          exact hu x hx
        · intro p q ⟨_, hq⟩
          exact hvb ⟨q, hq⟩
    · refine cmpRaw_str_of_mixed _ _ ?_ ?_
      · intro x y ⟨hx, _⟩
        exact hu x hx
      · intro p q ⟨hp, _⟩
        exact hub ⟨p, hp⟩
  have hs := strCmp_antisym (keyStr column a) (keyStr column b)
  cases dir <;>
    first
      | (simp [sortLe, leStr, jsComparator, hcmp a b ha hb, hcmp b a hb ha];
          omega)
      | simp [sortLe, leStr, jsComparator, hcmp a b ha hb, hcmp b a hb ha]

theorem leNum_trans (column : String) (dir : SortDirection) (a b c : Row)
    (h1 : leNum column dir a b = true) (h2 : leNum column dir b c = true) :
    leNum column dir a c = true := by
  cases dir <;> simp [leNum] at * <;> omega

theorem leNum_total (column : String) (dir : SortDirection) (a b : Row) :
    (leNum column dir a b || leNum column dir b a) = true := by
  cases dir <;> simp [leNum] <;> omega

theorem leStr_trans (column : String) (dir : SortDirection) (a b c : Row)
    (h1 : leStr column dir a b = true) (h2 : leStr column dir b c = true) :
    leStr column dir a c = true := by
  cases dir <;> simp [leStr] at * <;>
    exact strCmp_trans_nonpos _ _ _ (by assumption) (by assumption)

theorem leStr_total (column : String) (dir : SortDirection) (a b : Row) :
    (leStr column dir a b || leStr column dir b a) = true := by
  have h := strCmp_antisym (keyStr column a) (keyStr column b)
  cases dir <;> simp [leStr] <;> omega

/-- Sortedness of `sortData` on a type-homogeneous column, via the
globally transitive key order that agrees with the comparator on the
data. -/
theorem sortData_sorted_of_homog (data : List Row) (column : String)
    (dir : SortDirection) (h : homogeneousColumn data column) :
    (sortData data ⟨some column, some dir⟩).Pairwise
      (fun a b => sortLe column dir a b = true) := by
  cases h with
  | inl hnum =>
    have hagree : ∀ a ∈ data, ∀ b ∈ data,
        sortLe column dir a b = leNum column dir a b := by
      intro a ha b hb
      exact sortLe_eq_leNum column dir a b (hnum a ha) (hnum b hb)
    have hagree2 : ∀ a ∈ data, ∀ b ∈ data,
        sortLe column dir a b = leNum column dir (id a) (id b) := hagree
    have hmap := List.map_mergeSort hagree2
    have heq : data.mergeSort (sortLe column dir) =
        data.mergeSort (leNum column dir) := by
      simpa using hmap
    have hsorted := List.sorted_mergeSort
      (leNum_trans column dir) (leNum_total column dir) data
    have hsorted' : (data.mergeSort (sortLe column dir)).Pairwise
        (fun a b => leNum column dir a b = true) := heq ▸ hsorted
    show (data.mergeSort (sortLe column dir)).Pairwise _
    refine hsorted'.imp_of_mem ?_
    intro a b ha hb hle
    have ha' : a ∈ data := List.mem_mergeSort.mp ha
    have hb' : b ∈ data := List.mem_mergeSort.mp hb
    rw [hagree a ha' b hb']
    exact hle
  | inr hstr =>
    have hagree : ∀ a ∈ data, ∀ b ∈ data,
        sortLe column dir a b = leStr column dir a b := by
      intro a ha b hb
      exact sortLe_eq_leStr column dir a b (hstr a ha) (hstr b hb)
    have hagree2 : ∀ a ∈ data, ∀ b ∈ data,
        sortLe column dir a b = leStr column dir (id a) (id b) := hagree
    have hmap := List.map_mergeSort hagree2
    have heq : data.mergeSort (sortLe column dir) =
        data.mergeSort (leStr column dir) := by
      simpa using hmap
    have hsorted := List.sorted_mergeSort
      (leStr_trans column dir) (leStr_total column dir) data
    have hsorted' : (data.mergeSort (sortLe column dir)).Pairwise
        (fun a b => leStr column dir a b = true) := heq ▸ hsorted
    show (data.mergeSort (sortLe column dir)).Pairwise _
    refine hsorted'.imp_of_mem ?_
    intro a b ha hb hle
    have ha' : a ∈ data := List.mem_mergeSort.mp ha
    have hb' : b ∈ data := List.mem_mergeSort.mp hb
    rw [hagree a ha' b hb']
    exact hle

/-! ## Claim C2 -/

/-- Claim C2 as stated is false on the code: when the sort column mixes
numeric and non-numeric values, the claimed pair rules are cyclic (10
before "12" as strings, "12" before 2 as strings, but 2 before 10
numerically), so the produced order violates them.  Concretely, sorting
rows with `n` cells 10, "12", 2 ascending yields the order 2, 10, "12",
in which the pair (2, "12") contradicts the claimed string comparison:
"12" sorts strictly before 2. -/
theorem claim2_counterexample :
    sortData dataMixed sortAscN = [rowN2, rowN10, rowS12]
    ∧ sortLe "n" .asc rowS12 rowN2 = true
    ∧ sortLe "n" .asc rowN2 rowS12 = false := by
  refine ⟨?_, by decide, by decide⟩
  simp +decide [sortData, sortAscN, dataMixed, rowN10, rowS12, rowN2,
    List.mergeSort]

/-- Claim C2 amended: `sortData` returns the input itself when the sort
column or direction is null; otherwise it returns a permutation of the
input (a sorted copy — the input list itself is never mutated); on a
type-homogeneous column (all numbers, or no numbers — with a mix the pair
rules below are cyclic and unsatisfiable) the result is ordered by the
comparator; the comparator compares two numbers numerically, two booleans
with false before true, and every other pair as lowercase strings (with
null/undefined already coerced to the empty string by `getRawValue`); and
the `desc` comparison is exactly the negation of the `asc` one. -/
theorem claim2_sortData (data : List Row) (s : SortState) :
    ((s.column = none ∨ s.direction = none) → sortData data s = data)
    ∧ (sortData data s).Perm data
    ∧ (∀ column dir, s.column = some column → s.direction = some dir →
        homogeneousColumn data column →
        (sortData data s).Pairwise (fun a b => sortLe column dir a b = true))
    ∧ (∀ column a b, jsComparator column .desc a b = - jsComparator column .asc a b)
    ∧ (∀ x y : Int, cmpRaw (.num x) (.num y) = x - y)
    ∧ (∀ p q : Bool, cmpRaw (.bool p) (.bool q) =
        if p = q then 0 else if p then 1 else -1)
    ∧ (∀ va vb : RawValue, (∀ x y : Int, ¬(va = .num x ∧ vb = .num y)) →
        (∀ p q : Bool, ¬(va = .bool p ∧ vb = .bool q)) →
        cmpRaw va vb =
          strCmp (toLowerStr (rawToString va)) (toLowerStr (rawToString vb)))
    ∧ (∀ (row : Row) column,
        row.lookup column = none ∨ row.lookup column = some .vnull →
        getRawValue row column = .str "") := by
  obtain ⟨sc, sd⟩ := s
  refine ⟨?_, ?_, ?_, ?_, fun _ _ => rfl, fun _ _ => rfl,
    cmpRaw_str_of_mixed, ?_⟩
  · rintro (h | h) <;> subst h
    · rfl
    · cases sc <;> rfl
  · cases sc with
    | none => exact List.Perm.refl data
    | some column =>
      cases sd with
      | none => exact List.Perm.refl data
      | some dir => exact List.mergeSort_perm data (sortLe column dir)
  · intro column dir hc hd hhom
    cases hc
    cases hd
    exact sortData_sorted_of_homog data column dir hhom
  · intro column a b
    simp [jsComparator]
  · intro row column h
    rcases h with h | h <;> simp [getRawValue, h]

theorem claim2_sortData_witness :
    sortData dataNums ⟨none, none⟩ = dataNums
    ∧ (sortData dataNums sortAscN).Perm dataNums
    ∧ (sortData dataNums sortAscN).Pairwise
        (fun a b => sortLe "n" .asc a b = true)
    ∧ jsComparator "n" .desc rowN10 rowN2 = - jsComparator "n" .asc rowN10 rowN2
    ∧ cmpRaw (.num 3) (.num 1) = 3 - 1
    ∧ cmpRaw (.bool false) (.bool true) =
        (if (false : Bool) = true then 0 else if false then (1 : Int) else -1)
    ∧ cmpRaw (.str "B") (.bool true) =
        strCmp (toLowerStr (rawToString (.str "B")))
          (toLowerStr (rawToString (.bool true)))
    ∧ getRawValue ([] : Row) "n" = .str "" := by
  have h0 := claim2_sortData dataNums ⟨none, none⟩
  have h1 := claim2_sortData dataNums sortAscN
  have hhom : homogeneousColumn dataNums "n" := by
    refine Or.inl ?_
    intro r hr
    simp [dataNums] at hr
    rcases hr with rfl | rfl | rfl
    · exact ⟨3, rfl⟩
    · exact ⟨1, rfl⟩
    · exact ⟨2, rfl⟩
  refine ⟨h0.1 (Or.inl rfl), h1.2.1, h1.2.2.1 "n" .asc rfl rfl hhom,
    h1.2.2.2.1 "n" rowN10 rowN2, h1.2.2.2.2.1 3 1,
    h1.2.2.2.2.2.1 false true, ?_, h1.2.2.2.2.2.2.2 [] "n" (Or.inl rfl)⟩
  refine h1.2.2.2.2.2.2.1 (.str "B") (.bool true) ?_ ?_
  · rintro x y ⟨hx, -⟩
    exact RawValue.noConfusion hx
  · rintro p q ⟨hp, -⟩
    exact RawValue.noConfusion hp

end FilterTable
